import Mathlib

set_option autoImplicit false

/-!
Shallow embedding of the JobApproval Solidity contract
(src/contracts/JobApproval.sol) in Lean 4.

Modelling conventions:
* addresses are natural numbers, with 0 playing the role of address(0);
* bytes32 words are natural numbers; byte strings are lists of naturals;
* the EVM primitives keccak256 and ecrecover are not part of the repository,
  so the development is parametric over them (an Env record); witnesses
  instantiate Env with a simple concrete model;
* abi.encodePacked of a string is its UTF-8 byte sequence, computed by a
  standard UTF-8 encoder;
* a reverting call is an Except.error carrying the revert reason string; EVM
  reverts roll back the whole call, so an error result leaves no state;
* Solidity mappings are total functions with zero-initialised defaults;
* emitted events are accumulated in an event log inside the state.
-/

namespace JobApproval

abbrev Address := Nat
abbrev Bytes32 := Nat
abbrev Bytes := List Nat

/-- UTF-8 encoding of a single character (1 to 4 bytes). -/
def utf8Char (c : Char) : List Nat :=
  let n := c.toNat
  if n < 128 then [n]
  else if n < 2048 then [192 + n / 64, 128 + n % 64]
  else if n < 65536 then [224 + n / 4096, 128 + n / 64 % 64, 128 + n % 64]
  else [240 + n / 262144, 128 + n / 4096 % 64, 128 + n / 64 % 64, 128 + n % 64]

/-- abi.encodePacked of a single string: its UTF-8 bytes. -/
def encStr (s : String) : List Nat :=
  (s.data.map utf8Char).flatten

/-- The 32 big-endian bytes of a bytes32 word (abi.encodePacked of bytes32). -/
def bytes32ToBytes (h : Bytes32) : List Nat :=
  (List.range 32).map (fun i => h / 256 ^ (31 - i) % 256)

/-- Big-endian interpretation of a byte list as a word (mload). -/
def bytesToWord (l : List Nat) : Nat :=
  l.foldl (fun acc b => acc * 256 + b) 0

/-- The EVM primitives the contract relies on.  They live outside the
repository, so the development is parametric over them. -/
structure Env where
  keccak256 : List Nat → Bytes32
  ecrecover : Bytes32 → Nat → Bytes32 → Bytes32 → Address

/-- struct HRManager { address id; string name; } -/
structure HRManager where
  id : Address
  name : String
deriving DecidableEq, Repr, Inhabited

/-- struct FieldManager { address id; string name; string jobType; string email; } -/
structure FieldManager where
  id : Address
  name : String
  jobType : String
  email : String
deriving DecidableEq, Repr

/-- The zero-initialised FieldManager a Solidity mapping yields for an
absent key. -/
def FieldManager.zero : FieldManager := ⟨0, "", "", ""⟩

instance : Inhabited FieldManager := ⟨FieldManager.zero⟩

/-- The events the contract emits. -/
inductive Event where
  | JobApproved (title description : String) (hr fieldManager : Address)
  | HRManagerAdded (hrManager : Address) (name : String)
  | HRManagerRemoved (hrManager : Address)
  | HRManagerUpdated (hrManager : Address) (newName : String)
  | FieldManagerAdded (fieldManager : Address) (name jobType email : String)
  | FieldManagerRemoved (fieldManager : Address)
  | FieldManagerUpdated (fieldManager : Address) (newName newJobType newEmail : String)
deriving DecidableEq, Repr

/-- The contract storage plus the event log. -/
structure ContractState where
  jobTypes : List String
  hrManagers : List HRManager
  fieldManagers : String → FieldManager
  approvedJobs : Bytes32 → Bool
  emailExists : String → Bool
  eventLog : List Event

/-- Point update of a mapping. -/
def mapStore {α β : Type} [DecidableEq α] (m : α → β) (k : α) (v : β) : α → β :=
  fun x => if x = k then v else m x

/-- The membership scan of the onlyHRManager modifier and of verifyJob:
linear search of hrManagers for the given address. -/
def isHRManagerCheck (s : ContractState) (sender : Address) : Bool :=
  s.hrManagers.any (fun m => m.id == sender)

/-- The revert reason of the onlyHRManager modifier. -/
def accessDeniedMsg : String := "Only HR managers can perform this action"

/-- constructor(address _hrManager, string memory _hrManagerName) -/
def deploy (hrManager : Address) (hrManagerName : String) : ContractState :=
  { jobTypes := []
    hrManagers := [⟨hrManager, hrManagerName⟩]
    fieldManagers := fun _ => FieldManager.zero
    approvedJobs := fun _ => false
    emailExists := fun _ => false
    eventLog := [Event.HRManagerAdded hrManager hrManagerName] }

/-- addHRManager: push a new record (access-controlled). -/
def addHRManager (s : ContractState) (sender hrManager : Address) (name : String) :
    Except String ContractState :=
  if isHRManagerCheck s sender then
    Except.ok { s with
      hrManagers := s.hrManagers ++ [⟨hrManager, name⟩]
      eventLog := s.eventLog ++ [Event.HRManagerAdded hrManager name] }
  else Except.error accessDeniedMsg

/-- hrManagers[i] = hrManagers[len-1]; hrManagers.pop() -/
def swapRemoveAt {α : Type} [Inhabited α] (l : List α) (i : Nat) : List α :=
  (l.set i (l.getLastD default)).dropLast

/-- removeHRManager: swap-and-pop the first record with the given address;
silent no-op when absent. -/
def removeHRManager (s : ContractState) (sender hrManager : Address) :
    Except String ContractState :=
  if isHRManagerCheck s sender then
    match s.hrManagers.findIdx? (fun m => m.id == hrManager) with
    | some i =>
        Except.ok { s with
          hrManagers := swapRemoveAt s.hrManagers i
          eventLog := s.eventLog ++ [Event.HRManagerRemoved hrManager] }
    | none => Except.ok s
  else Except.error accessDeniedMsg

/-- updateHRManager: rename the first record with the given address;
silent no-op when absent. -/
def updateHRManager (s : ContractState) (sender hrManager : Address) (newName : String) :
    Except String ContractState :=
  if isHRManagerCheck s sender then
    match s.hrManagers.findIdx? (fun m => m.id == hrManager) with
    | some i =>
        Except.ok { s with
          hrManagers := s.hrManagers.set i { s.hrManagers.getD i default with name := newName }
          eventLog := s.eventLog ++ [Event.HRManagerUpdated hrManager newName] }
    | none => Except.ok s
  else Except.error accessDeniedMsg

/-- listHRManagers view. -/
def listHRManagers (s : ContractState) : List HRManager := s.hrManagers

/-- addFieldManager: requires the domain slot free and the email unindexed,
then registers record, email and jobType entry. -/
def addFieldManager (s : ContractState) (sender fieldManager : Address)
    (name jobType email : String) : Except String ContractState :=
  if isHRManagerCheck s sender then
    if (s.fieldManagers jobType).id ≠ 0 then
      Except.error "Field manager already exists for this job type"
    else if s.emailExists email then
      Except.error "Email already exists"
    else
      Except.ok { s with
        fieldManagers := mapStore s.fieldManagers jobType ⟨fieldManager, name, jobType, email⟩
        emailExists := mapStore s.emailExists email true
        jobTypes := s.jobTypes ++ [jobType]
        eventLog := s.eventLog ++ [Event.FieldManagerAdded fieldManager name jobType email] }
  else Except.error accessDeniedMsg

/-- The jobTypes-array compaction loop: find the first entry whose packed
keccak hash equals the target's and swap-and-pop it (the source compares
keccak256(abi.encodePacked(.)) values, not the strings themselves). -/
def removeJobTypeEntry (env : Env) (l : List String) (target : String) : List String :=
  match l.findIdx? (fun x => env.keccak256 (encStr x) == env.keccak256 (encStr target)) with
  | some i => swapRemoveAt l i
  | none => l

/-- removeFieldManager: requires the slot occupied; frees the record, its
email, and the jobTypes entry. -/
def removeFieldManager (env : Env) (s : ContractState) (sender : Address)
    (jobType : String) : Except String ContractState :=
  if isHRManagerCheck s sender then
    if (s.fieldManagers jobType).id = 0 then
      Except.error "Field manager does not exist"
    else
      let addr := (s.fieldManagers jobType).id
      let email := (s.fieldManagers jobType).email
      Except.ok { s with
        fieldManagers := mapStore s.fieldManagers jobType FieldManager.zero
        emailExists := mapStore s.emailExists email false
        jobTypes := removeJobTypeEntry env s.jobTypes jobType
        eventLog := s.eventLog ++ [Event.FieldManagerRemoved addr] }
  else Except.error accessDeniedMsg

/-- updateFieldManager: requires the old slot occupied and the new email
unindexed; frees the old email and claims the new one, rewrites the
jobTypes array, stores the record under the new key and, when the packed
hashes of the keys differ, deletes the old key. -/
def updateFieldManager (env : Env) (s : ContractState) (sender : Address)
    (jobType newName newJobType newEmail : String) : Except String ContractState :=
  if isHRManagerCheck s sender then
    if (s.fieldManagers jobType).id = 0 then
      Except.error "Field manager does not exist"
    else if s.emailExists newEmail then
      Except.error "Email already exists"
    else
      let addr := (s.fieldManagers jobType).id
      let oldEmail := (s.fieldManagers jobType).email
      let emails := mapStore (mapStore s.emailExists oldEmail false) newEmail true
      let jts := removeJobTypeEntry env s.jobTypes jobType ++ [newJobType]
      let fms := mapStore s.fieldManagers newJobType ⟨addr, newName, newJobType, newEmail⟩
      let fms2 :=
        if env.keccak256 (encStr jobType) ≠ env.keccak256 (encStr newJobType) then
          mapStore fms jobType FieldManager.zero
        else fms
      Except.ok { s with
        fieldManagers := fms2
        emailExists := emails
        jobTypes := jts
        eventLog := s.eventLog ++
          [Event.FieldManagerUpdated addr newName newJobType newEmail] }
  else Except.error accessDeniedMsg

/-- listFieldManagers view: the records at the stored jobTypes keys. -/
def listFieldManagers (s : ContractState) : List FieldManager :=
  s.jobTypes.map s.fieldManagers

/-- getMessageHash: keccak256(abi.encodePacked(title, description)) -/
def getMessageHash (env : Env) (title description : String) : Bytes32 :=
  env.keccak256 (encStr title ++ encStr description)

/-- The personal-sign header prepended by getEthSignedMessageHash. -/
def ethSignedMessageHeader : String := "\x19Ethereum Signed Message:\n32"

/-- getEthSignedMessageHash: keccak256 of the header followed by the 32
bytes of the message hash. -/
def getEthSignedMessageHash (env : Env) (messageHash : Bytes32) : Bytes32 :=
  env.keccak256 (encStr ethSignedMessageHeader ++ bytes32ToBytes messageHash)

/-- splitSignature: requires a 65-byte signature and splits it into
(r, s, v) = (bytes 0-31, bytes 32-63, byte 64). -/
def splitSignature (sig : Bytes) : Except String (Bytes32 × Bytes32 × Nat) :=
  if sig.length = 65 then
    Except.ok (bytesToWord (sig.take 32), bytesToWord ((sig.drop 32).take 32),
      (sig.drop 64).headD 0)
  else Except.error "Invalid signature length"

/-- recoverSigner: split the signature, then ecrecover. -/
def recoverSigner (env : Env) (ethSignedMessageHash : Bytes32) (signature : Bytes) :
    Except String Address :=
  match splitSignature signature with
  | Except.error e => Except.error e
  | Except.ok (r, s, v) => Except.ok (env.ecrecover ethSignedMessageHash v r s)

/-- verifyJob, in the source's check order: domain assigned, digest not yet
approved, recover both signers, authorizer-membership check, specialist
identity check, then record and emit. -/
def verifyJob (env : Env) (s : ContractState) (title description jobType : String)
    (hrSignature fieldManagerSignature : Bytes) : Except String ContractState :=
  if (s.fieldManagers jobType).id = 0 then
    Except.error "No field manager assigned"
  else
    let jobHash := getMessageHash env title description
    let ethSignedMessageHash := getEthSignedMessageHash env jobHash
    if s.approvedJobs jobHash then Except.error "Job already approved"
    else
      match recoverSigner env ethSignedMessageHash hrSignature with
      | Except.error e => Except.error e
      | Except.ok hrSigner =>
        match recoverSigner env ethSignedMessageHash fieldManagerSignature with
        | Except.error e => Except.error e
        | Except.ok fieldSigner =>
          if isHRManagerCheck s hrSigner then
            if fieldSigner = (s.fieldManagers jobType).id then
              Except.ok { s with
                approvedJobs := mapStore s.approvedJobs jobHash true
                eventLog := s.eventLog ++
                  [Event.JobApproved title description hrSigner fieldSigner] }
            else Except.error "Invalid Field Manager signature"
          else Except.error "Invalid HR signature"

/-- The approved-jobs view composed with getMessageHash. -/
def isApproved (env : Env) (s : ContractState) (title description : String) : Bool :=
  s.approvedJobs (getMessageHash env title description)

/-- One external call to the contract, with its sender where the source
reads msg.sender. -/
inductive Op where
  | addHRManagerOp (sender hrManager : Address) (name : String)
  | removeHRManagerOp (sender hrManager : Address)
  | updateHRManagerOp (sender hrManager : Address) (newName : String)
  | addFieldManagerOp (sender fieldManager : Address) (name jobType email : String)
  | removeFieldManagerOp (sender : Address) (jobType : String)
  | updateFieldManagerOp (sender : Address) (jobType newName newJobType newEmail : String)
  | verifyJobOp (title description jobType : String) (hrSignature fieldManagerSignature : Bytes)

/-- Dispatch an external call to the corresponding contract function. -/
def execOp (env : Env) (s : ContractState) : Op → Except String ContractState
  | Op.addHRManagerOp sender a n => addHRManager s sender a n
  | Op.removeHRManagerOp sender a => removeHRManager s sender a
  | Op.updateHRManagerOp sender a n => updateHRManager s sender a n
  | Op.addFieldManagerOp sender fm n jt e => addFieldManager s sender fm n jt e
  | Op.removeFieldManagerOp sender jt => removeFieldManager env s sender jt
  | Op.updateFieldManagerOp sender jt nn njt ne => updateFieldManager env s sender jt nn njt ne
  | Op.verifyJobOp t d jt sa ss => verifyJob env s t d jt sa ss

/-- States reachable from deployment by successful calls. -/
inductive Reachable (env : Env) : ContractState → Prop where
  | deployed (hrManager : Address) (name : String) : Reachable env (deploy hrManager name)
  | step {s s' : ContractState} (op : Op) : Reachable env s →
      execOp env s op = Except.ok s' → Reachable env s'

/-- Restriction on calls under which the email index stays consistent:
no specialist is registered with the zero sentinel identity, and an update
never moves a record onto a distinct occupied domain key (nor relies on a
packed-hash collision between distinct keys). -/
def goodOp (env : Env) (s : ContractState) : Op → Prop
  | Op.addFieldManagerOp _ fieldManager _ _ _ => fieldManager ≠ 0
  | Op.updateFieldManagerOp _ jobType _ newJobType _ =>
      (newJobType = jobType ∨ (s.fieldManagers newJobType).id = 0) ∧
      (env.keccak256 (encStr jobType) = env.keccak256 (encStr newJobType) →
        jobType = newJobType)
  | _ => True

/-- States reachable from deployment by successful calls all of which
satisfy goodOp. -/
inductive GoodReachable (env : Env) : ContractState → Prop where
  | deployed (hrManager : Address) (name : String) : GoodReachable env (deploy hrManager name)
  | step {s s' : ContractState} (op : Op) : GoodReachable env s → goodOp env s op →
      execOp env s op = Except.ok s' → GoodReachable env s'

/-- The contact-uniqueness condition on raw maps: an email is marked in the
index exactly when some live record (nonzero identity) carries it. -/
def EmailOk (fms : String → FieldManager) (ems : String → Bool) : Prop :=
  ∀ e : String, ems e = true ↔
    ∃ dt : String, (fms dt).id ≠ 0 ∧ (fms dt).email = e

/-- At most one live record per email. -/
def UniqOk (fms : String → FieldManager) : Prop :=
  ∀ dt₁ dt₂ : String, (fms dt₁).id ≠ 0 → (fms dt₂).id ≠ 0 →
    (fms dt₁).email = (fms dt₂).email → dt₁ = dt₂

/-- The contact-uniqueness invariant of the spec, on contract states. -/
def EmailInv (s : ContractState) : Prop :=
  EmailOk s.fieldManagers s.emailExists

/-- A concrete environment for witnesses: keccak256 is modelled by an
injective base-257 encoding of the byte list, ecrecover returns the r word. -/
def cEnv : Env :=
  { keccak256 := fun l => l.foldl (fun acc b => acc * 257 + b % 256 + 1) 1
    ecrecover := fun _ _ r _ => r }

/-- A 65-byte signature whose r word is a (for a < 256), so that under cEnv
it recovers to address a. -/
def mkSig (a : Nat) : Bytes :=
  List.replicate 31 0 ++ [a] ++ List.replicate 32 0 ++ [27]

/-- Extract the success state of a call, with a fallback. -/
def forceOk (d : ContractState) : Except String ContractState → ContractState
  | Except.ok s => s
  | Except.error _ => d

/-- Deployment state used by witnesses: seed authorizer 1 named Alice. -/
def st0 : ContractState := deploy 1 "Alice"

/-- st0 after authorizer 1 registers specialist 2 for the IT domain. -/
def stIT : ContractState :=
  forceOk st0 (addFieldManager st0 1 2 "Charlie" "IT" "c@x")

/-- stIT after a successful dual-signature approval of job (T, D). -/
def stApproved : ContractState :=
  forceOk stIT (verifyJob cEnv stIT "T" "D" "IT" (mkSig 1) (mkSig 2))

/-! ## Helper lemmas -/

theorem mapStore_same {α β : Type} [DecidableEq α] (m : α → β) (k : α) (v : β) :
    mapStore m k v k = v := by
  simp [mapStore]

theorem mapStore_other {α β : Type} [DecidableEq α] (m : α → β) (k x : α) (v : β)
    (h : x ≠ k) : mapStore m k v x = m x := by
  simp [mapStore, h]

theorem encStr_append (a b : String) : encStr (a ++ b) = encStr a ++ encStr b := by
  cases a with | mk la =>
  cases b with | mk lb =>
  show encStr ⟨la ++ lb⟩ = encStr ⟨la⟩ ++ encStr ⟨lb⟩
  simp [encStr]

theorem recoverSigner_len65 (env : Env) (h : Bytes32) (sig : Bytes)
    (hl : sig.length = 65) :
    recoverSigner env h sig = Except.ok (env.ecrecover h ((sig.drop 64).headD 0)
      (bytesToWord (sig.take 32)) (bytesToWord ((sig.drop 32).take 32))) := by
  unfold recoverSigner splitSignature
  simp [hl]

theorem verifyJob_ok_st (env : Env) (s : ContractState) (t d jt : String)
    (sa ss : Bytes) (hrA fmA : Address)
    (hdom : (s.fieldManagers jt).id ≠ 0)
    (hnew : s.approvedJobs (getMessageHash env t d) = false)
    (hra : recoverSigner env (getEthSignedMessageHash env (getMessageHash env t d)) sa =
      Except.ok hrA)
    (hmem : isHRManagerCheck s hrA = true)
    (hfs : recoverSigner env (getEthSignedMessageHash env (getMessageHash env t d)) ss =
      Except.ok fmA)
    (hfid : fmA = (s.fieldManagers jt).id) :
    verifyJob env s t d jt sa ss = Except.ok { s with
      approvedJobs := mapStore s.approvedJobs (getMessageHash env t d) true
      eventLog := s.eventLog ++ [Event.JobApproved t d hrA fmA] } := by
  unfold verifyJob
  simp [hdom, hnew, hra, hfs, hmem, hfid]

/-! ## Claims -/

/-- C5: getMessageHash is deterministic and hashes the separator-free
concatenation of title and description, so any two pairs with the same
concatenation collide. -/
theorem getMessageHash_concat (env : Env) (t₁ d₁ t₂ d₂ : String) :
    getMessageHash env t₁ d₁ = env.keccak256 (encStr (t₁ ++ d₁)) ∧
    (t₁ ++ d₁ = t₂ ++ d₂ → getMessageHash env t₁ d₁ = getMessageHash env t₂ d₂) := by
  constructor
  · unfold getMessageHash
    rw [encStr_append]
  · intro h
    unfold getMessageHash
    rw [← encStr_append, ← encStr_append, h]

/-- Witness for C5: the documented boundary collision ("ab","c") vs ("a","bc"). -/
theorem getMessageHash_concat_witness :
    getMessageHash cEnv "ab" "c" = getMessageHash cEnv "a" "bc" :=
  (getMessageHash_concat cEnv "ab" "c" "a" "bc").2 (by decide)

/-- C9: a signature whose length is not 65 makes recoverSigner fail with the
invalid-signature-length error; the environment (hence ecrecover) is
arbitrary, so no curve recovery is involved in the result. -/
theorem recoverSigner_invalid_length (env : Env) (h : Bytes32) (sig : Bytes)
    (hlen : sig.length ≠ 65) :
    recoverSigner env h sig = Except.error "Invalid signature length" := by
  unfold recoverSigner splitSignature
  simp [hlen]

/-- Witness for C9 at a concrete 3-byte signature. -/
theorem recoverSigner_invalid_length_witness :
    recoverSigner cEnv 0 [1, 2, 3] = Except.error "Invalid signature length" :=
  recoverSigner_invalid_length cEnv 0 [1, 2, 3] (by decide)

/-- C6: with no specialist registered for the domainType, verifyJob fails
with the no-field-manager error for every pair of (possibly malformed)
signatures and every environment, so no signature is ever examined. -/
theorem verifyJob_domain_unassigned (env : Env) (s : ContractState)
    (t d jt : String) (sa ss : Bytes) (h : (s.fieldManagers jt).id = 0) :
    verifyJob env s t d jt sa ss = Except.error "No field manager assigned" := by
  unfold verifyJob
  simp [h]

/-- Witness for C6: the freshly deployed state has no specialist for IT. -/
theorem verifyJob_domain_unassigned_witness :
    verifyJob cEnv st0 "T" "D" "IT" [] [9, 9] =
      Except.error "No field manager assigned" :=
  verifyJob_domain_unassigned cEnv st0 "T" "D" "IT" [] [9, 9] (by decide)

/-- C8: every mutating registry operation called by a non-authorizer fails
with the access-denied error; in the Except model an error result carries no
state, matching the all-or-nothing rollback of a revert. -/
theorem registry_access_control (env : Env) (s : ContractState)
    (sender a fm : Address) (nm jt nn njt ne e : String)
    (h : isHRManagerCheck s sender = false) :
    addHRManager s sender a nm = Except.error accessDeniedMsg ∧
    removeHRManager s sender a = Except.error accessDeniedMsg ∧
    updateHRManager s sender a nm = Except.error accessDeniedMsg ∧
    addFieldManager s sender fm nm jt e = Except.error accessDeniedMsg ∧
    removeFieldManager env s sender jt = Except.error accessDeniedMsg ∧
    updateFieldManager env s sender jt nn njt ne = Except.error accessDeniedMsg := by
  unfold addHRManager removeHRManager updateHRManager addFieldManager
    removeFieldManager updateFieldManager
  simp [h]

/-- Witness for C8: address 9 is not an authorizer of the deployed state. -/
theorem registry_access_control_witness :
    addHRManager st0 9 5 "Bob" = Except.error accessDeniedMsg ∧
    removeHRManager st0 9 1 = Except.error accessDeniedMsg ∧
    updateHRManager st0 9 1 "Bob" = Except.error accessDeniedMsg ∧
    addFieldManager st0 9 5 "Bob" "IT" "b@x" = Except.error accessDeniedMsg ∧
    removeFieldManager cEnv st0 9 "IT" = Except.error accessDeniedMsg ∧
    updateFieldManager cEnv st0 9 "IT" "Bob" "IT" "b@x" = Except.error accessDeniedMsg :=
  registry_access_control cEnv st0 9 5 5 "Bob" "IT" "Bob" "IT" "b@x" "b@x" (by decide)

/-- C2: with a specialist registered for the domainType, an unapproved
digest, an authorizer signature recovering to a current authorizer and a
specialist signature recovering to the registered specialist, verifyJob
succeeds, marks the digest approved (so isApproved returns true) and emits
the JobApproved event with both identities. -/
theorem verifyJob_success (env : Env) (s : ContractState) (t d jt : String)
    (sa ss : Bytes) (hrA fmA : Address)
    (hdom : (s.fieldManagers jt).id ≠ 0)
    (hnew : s.approvedJobs (getMessageHash env t d) = false)
    (hra : recoverSigner env (getEthSignedMessageHash env (getMessageHash env t d)) sa =
      Except.ok hrA)
    (hmem : isHRManagerCheck s hrA = true)
    (hfs : recoverSigner env (getEthSignedMessageHash env (getMessageHash env t d)) ss =
      Except.ok fmA)
    (hfid : fmA = (s.fieldManagers jt).id) :
    ∃ s', verifyJob env s t d jt sa ss = Except.ok s' ∧
      s'.approvedJobs (getMessageHash env t d) = true ∧
      isApproved env s' t d = true ∧
      s'.eventLog = s.eventLog ++ [Event.JobApproved t d hrA fmA] := by
  refine ⟨_, verifyJob_ok_st env s t d jt sa ss hrA fmA hdom hnew hra hmem hfs hfid,
    ?_, ?_, rfl⟩
  · exact mapStore_same _ _ _
  · simp [isApproved, mapStore_same]

/-- Witness for C2: authorizer 1 and specialist 2 jointly approve (T, D). -/
theorem verifyJob_success_witness :
    ∃ s', verifyJob cEnv stIT "T" "D" "IT" (mkSig 1) (mkSig 2) = Except.ok s' ∧
      s'.approvedJobs (getMessageHash cEnv "T" "D") = true ∧
      isApproved cEnv s' "T" "D" = true ∧
      s'.eventLog = stIT.eventLog ++ [Event.JobApproved "T" "D" 1 2] :=
  verifyJob_success cEnv stIT "T" "D" "IT" (mkSig 1) (mkSig 2) 1 2
    (by decide) (by decide) rfl (by decide) rfl (by decide)

/-- st0 after authorizer 1 registers itself as the IT specialist, so that a
single identity holds both roles. -/
def stDual : ContractState :=
  forceOk st0 (addFieldManager st0 1 1 "Alice" "IT" "a@x")

/-- C10: verifyJob never requires the two recovered signers to differ: a
dual-role identity approves with the same signature passed twice. -/
theorem verifyJob_dual_role (env : Env) (s : ContractState) (t d jt : String)
    (sig : Bytes) (x : Address)
    (hx : (s.fieldManagers jt).id = x) (hx0 : x ≠ 0)
    (hnew : s.approvedJobs (getMessageHash env t d) = false)
    (hrec : recoverSigner env (getEthSignedMessageHash env (getMessageHash env t d)) sig =
      Except.ok x)
    (hmem : isHRManagerCheck s x = true) :
    ∃ s', verifyJob env s t d jt sig sig = Except.ok s' ∧
      isApproved env s' t d = true := by
  refine ⟨_, verifyJob_ok_st env s t d jt sig sig x x ?_ hnew hrec hmem hrec hx.symm, ?_⟩
  · rw [hx]; exact hx0
  · simp [isApproved, mapStore_same]

/-- Witness for C10: identity 1 is both the seed authorizer and the IT
specialist of stDual, and self-approves with one signature. -/
theorem verifyJob_dual_role_witness :
    ∃ s', verifyJob cEnv stDual "T" "D" "IT" (mkSig 1) (mkSig 1) = Except.ok s' ∧
      isApproved cEnv s' "T" "D" = true :=
  verifyJob_dual_role cEnv stDual "T" "D" "IT" (mkSig 1) 1
    (by decide) (by decide) (by decide) rfl (by decide)

/-! ## Inversion lemmas for successful calls -/

theorem addHRManager_ok_inv {s s' : ContractState} {sender a : Address} {n : String}
    (h : addHRManager s sender a n = Except.ok s') :
    s'.fieldManagers = s.fieldManagers ∧ s'.emailExists = s.emailExists ∧
    s'.approvedJobs = s.approvedJobs := by
  unfold addHRManager at h
  split at h
  · cases h; exact ⟨rfl, rfl, rfl⟩
  · cases h

theorem removeHRManager_ok_inv {s s' : ContractState} {sender a : Address}
    (h : removeHRManager s sender a = Except.ok s') :
    s'.fieldManagers = s.fieldManagers ∧ s'.emailExists = s.emailExists ∧
    s'.approvedJobs = s.approvedJobs := by
  unfold removeHRManager at h
  split at h
  · split at h
    · cases h; exact ⟨rfl, rfl, rfl⟩
    · cases h; exact ⟨rfl, rfl, rfl⟩
  · cases h

theorem updateHRManager_ok_inv {s s' : ContractState} {sender a : Address} {n : String}
    (h : updateHRManager s sender a n = Except.ok s') :
    s'.fieldManagers = s.fieldManagers ∧ s'.emailExists = s.emailExists ∧
    s'.approvedJobs = s.approvedJobs := by
  unfold updateHRManager at h
  split at h
  · split at h
    · cases h; exact ⟨rfl, rfl, rfl⟩
    · cases h; exact ⟨rfl, rfl, rfl⟩
  · cases h

theorem addFieldManager_ok_inv {s s' : ContractState} {sender fm : Address}
    {n jt e : String} (h : addFieldManager s sender fm n jt e = Except.ok s') :
    (s.fieldManagers jt).id = 0 ∧ s.emailExists e = false ∧
    s'.fieldManagers = mapStore s.fieldManagers jt ⟨fm, n, jt, e⟩ ∧
    s'.emailExists = mapStore s.emailExists e true ∧
    s'.approvedJobs = s.approvedJobs := by
  unfold addFieldManager at h
  split at h
  · split at h
    · cases h
    · split at h
      · cases h
      · cases h
        next hocc hmail =>
        exact ⟨not_not.mp hocc, by simpa using hmail, rfl, rfl, rfl⟩
  · cases h

theorem removeFieldManager_ok_inv {env : Env} {s s' : ContractState} {sender : Address}
    {jt : String} (h : removeFieldManager env s sender jt = Except.ok s') :
    (s.fieldManagers jt).id ≠ 0 ∧
    s'.fieldManagers = mapStore s.fieldManagers jt FieldManager.zero ∧
    s'.emailExists = mapStore s.emailExists (s.fieldManagers jt).email false ∧
    s'.approvedJobs = s.approvedJobs := by
  unfold removeFieldManager at h
  split at h
  · split at h
    · cases h
    · cases h
      next hocc =>
      exact ⟨hocc, rfl, rfl, rfl⟩
  · cases h

theorem updateFieldManager_ok_inv {env : Env} {s s' : ContractState} {sender : Address}
    {jt nn njt ne : String}
    (h : updateFieldManager env s sender jt nn njt ne = Except.ok s') :
    (s.fieldManagers jt).id ≠ 0 ∧ s.emailExists ne = false ∧
    s'.emailExists =
      mapStore (mapStore s.emailExists (s.fieldManagers jt).email false) ne true ∧
    s'.fieldManagers =
      (if env.keccak256 (encStr jt) ≠ env.keccak256 (encStr njt) then
        mapStore (mapStore s.fieldManagers njt
          ⟨(s.fieldManagers jt).id, nn, njt, ne⟩) jt FieldManager.zero
      else
        mapStore s.fieldManagers njt ⟨(s.fieldManagers jt).id, nn, njt, ne⟩) ∧
    s'.approvedJobs = s.approvedJobs := by
  unfold updateFieldManager at h
  split at h
  · split at h
    · cases h
    · split at h
      · cases h
      · cases h
        next hocc hmail =>
        exact ⟨hocc, by simpa using hmail, rfl, rfl, rfl⟩
  · cases h

theorem verifyJob_ok_inv {env : Env} {s s' : ContractState} {t d jt : String}
    {sa ss : Bytes} (h : verifyJob env s t d jt sa ss = Except.ok s') :
    s'.fieldManagers = s.fieldManagers ∧ s'.emailExists = s.emailExists ∧
    s'.approvedJobs = mapStore s.approvedJobs (getMessageHash env t d) true := by
  unfold verifyJob at h
  split at h
  · cases h
  · dsimp only at h
    split at h
    · cases h
    · split at h
      · cases h
      · split at h
        · cases h
        · split at h
          · split at h
            · cases h; exact ⟨rfl, rfl, rfl⟩
            · cases h
          · cases h

/-- Counterexample to C1 as stated: the digest of (T, D) is approved in
stApproved, yet a repeat verifyJob naming the unassigned domainType Finance
does not fail with the already-approved error (the domain check precedes the
replay check). -/
theorem approval_terminal_cex :
    stApproved.approvedJobs (getMessageHash cEnv "T" "D") = true ∧
    verifyJob cEnv stApproved "T" "D" "Finance" [] [] ≠
      Except.error "Job already approved" := by
  refine ⟨by decide, fun hcontra => ?_⟩
  have h1 : verifyJob cEnv stApproved "T" "D" "Finance" [] [] =
      Except.error "No field manager assigned" := rfl
  rw [h1] at hcontra
  injection hcontra with h2
  exact absurd h2 (by decide)

/-- C1 amended: the approved flag of a digest is never reset by any
operation, and a later verifyJob on a title/description pair hashing to an
approved digest fails with the already-approved error whenever the named
domainType has a registered specialist (with an unassigned domainType it
fails with the no-field-manager error instead). -/
theorem approval_terminal (env : Env) (s : ContractState) :
    (∀ (op : Op) (s' : ContractState), execOp env s op = Except.ok s' →
      ∀ h : Bytes32, s.approvedJobs h = true → s'.approvedJobs h = true) ∧
    (∀ (t d jt : String) (sa ss : Bytes),
      s.approvedJobs (getMessageHash env t d) = true →
      (s.fieldManagers jt).id ≠ 0 →
      verifyJob env s t d jt sa ss = Except.error "Job already approved") := by
  constructor
  · intro op s' hok h htrue
    cases op with
    | addHRManagerOp sender a n =>
        simp only [execOp] at hok
        rw [(addHRManager_ok_inv hok).2.2]; exact htrue
    | removeHRManagerOp sender a =>
        simp only [execOp] at hok
        rw [(removeHRManager_ok_inv hok).2.2]; exact htrue
    | updateHRManagerOp sender a n =>
        simp only [execOp] at hok
        rw [(updateHRManager_ok_inv hok).2.2]; exact htrue
    | addFieldManagerOp sender fm n jt e =>
        simp only [execOp] at hok
        rw [(addFieldManager_ok_inv hok).2.2.2.2]; exact htrue
    | removeFieldManagerOp sender jt =>
        simp only [execOp] at hok
        rw [(removeFieldManager_ok_inv hok).2.2.2]; exact htrue
    | updateFieldManagerOp sender jt nn njt ne =>
        simp only [execOp] at hok
        rw [(updateFieldManager_ok_inv hok).2.2.2.2]; exact htrue
    | verifyJobOp t d jt sa ss =>
        simp only [execOp] at hok
        rw [(verifyJob_ok_inv hok).2.2]
        by_cases hh : h = getMessageHash env t d
        · rw [hh, mapStore_same]
        · rw [mapStore_other _ _ _ _ hh]; exact htrue
  · intro t d jt sa ss happ hdom
    unfold verifyJob
    simp [hdom, happ]

/-- stApproved after a further registry call (used by the C1 witness). -/
def stMore : ContractState := forceOk stApproved (addHRManager stApproved 1 5 "Bob")

/-- Witness for C1 amended: after another registry call the digest stays
approved, and a repeat approval on the assigned IT domain fails with the
already-approved error. -/
theorem approval_terminal_witness :
    stMore.approvedJobs (getMessageHash cEnv "T" "D") = true ∧
    verifyJob cEnv stApproved "T" "D" "IT" [] [] =
      Except.error "Job already approved" :=
  ⟨(approval_terminal cEnv stApproved).1 (Op.addHRManagerOp 1 5 "Bob") stMore rfl
      (getMessageHash cEnv "T" "D") (by decide),
    (approval_terminal cEnv stApproved).2 "T" "D" "IT" [] [] (by decide) (by decide)⟩

/-- Counterexample to C7 as stated: a well-formed authorizer signature
recovering to 9 (not an authorizer of stIT) together with a malformed
specialist signature fails with the invalid-signature-length error, not with
the invalid-HR-signature error, because both signatures are split before any
membership check. -/
theorem invalid_authorizer_cex :
    (mkSig 9).length = 65 ∧
    isHRManagerCheck stIT 9 = false ∧
    recoverSigner cEnv (getEthSignedMessageHash cEnv (getMessageHash cEnv "T" "D"))
      (mkSig 9) = Except.ok 9 ∧
    verifyJob cEnv stIT "T" "D" "IT" (mkSig 9) [] ≠
      Except.error "Invalid HR signature" := by
  refine ⟨by decide, by decide, rfl, fun hc => ?_⟩
  have h1 : verifyJob cEnv stIT "T" "D" "IT" (mkSig 9) [] =
      Except.error "Invalid signature length" := rfl
  rw [h1] at hc
  injection hc with h2
  exact absurd h2 (by decide)

/-- C7 amended: when the signature checks are reached (specialist assigned,
digest unapproved, specialist signature also 65 bytes), a well-formed
authorizer signature recovering outside the authorizer set fails with the
invalid-HR-signature error, for any title and description. -/
theorem invalid_authorizer_rejected (env : Env) (s : ContractState)
    (t d jt : String) (sa ss : Bytes) (hrA : Address)
    (hdom : (s.fieldManagers jt).id ≠ 0)
    (hnew : s.approvedJobs (getMessageHash env t d) = false)
    (hra : recoverSigner env (getEthSignedMessageHash env (getMessageHash env t d)) sa =
      Except.ok hrA)
    (hmem : isHRManagerCheck s hrA = false)
    (hsslen : ss.length = 65) :
    verifyJob env s t d jt sa ss = Except.error "Invalid HR signature" := by
  unfold verifyJob
  simp [hdom, hnew, hra, recoverSigner_len65 env _ ss hsslen, hmem]

/-- Witness for C7 amended: signer 9 is no authorizer of stIT and is
rejected even though the specialist signature is valid. -/
theorem invalid_authorizer_rejected_witness :
    verifyJob cEnv stIT "T" "D" "IT" (mkSig 9) (mkSig 2) =
      Except.error "Invalid HR signature" :=
  invalid_authorizer_rejected cEnv stIT "T" "D" "IT" (mkSig 9) (mkSig 2) 9
    (by decide) (by decide) rfl (by decide) (by decide)

/-- Counterexample to C4 as stated: updating the IT specialist while keeping
its current email fails with the email-taken error, because the code checks
the new email against the index before freeing the old one. -/
theorem update_same_contact_cex :
    isHRManagerCheck stIT 1 = true ∧
    (stIT.fieldManagers "IT").id ≠ 0 ∧
    (stIT.fieldManagers "IT").email = "c@x" ∧
    updateFieldManager cEnv stIT 1 "IT" "Charlie2" "IT" "c@x" =
      Except.error "Email already exists" :=
  ⟨by decide, by decide, by decide, rfl⟩

/-- C4 amended: for an authorizer updating an occupied domainType, the call
fails with the email-taken error exactly when the new email is currently in
the uniqueness index — including when it equals the record's own current
email, which is always indexed; an in-place update must supply a fresh
email. -/
theorem update_contact_taken (env : Env) (s : ContractState) (sender : Address)
    (jt nn njt ne : String)
    (hhr : isHRManagerCheck s sender = true)
    (hdom : (s.fieldManagers jt).id ≠ 0) :
    updateFieldManager env s sender jt nn njt ne =
      Except.error "Email already exists" ↔ s.emailExists ne = true := by
  unfold updateFieldManager
  simp only [hhr, if_true, if_neg hdom]
  split
  · simp_all
  · simp_all

/-- Witness for C4 amended: the taken email c@x is rejected. -/
theorem update_contact_taken_witness :
    updateFieldManager cEnv stIT 1 "IT" "Charlie2" "Support" "c@x" =
      Except.error "Email already exists" :=
  (update_contact_taken cEnv stIT 1 "IT" "Charlie2" "Support" "c@x"
    (by decide) (by decide)).2 (by decide)

/-! ## Preservation of the email index invariant -/

theorem emailOk_add {fms : String → FieldManager} {ems : String → Bool}
    (hOk : EmailOk fms ems) (hU : UniqOk fms) {fm : Address} {n jt e : String}
    (hfm : fm ≠ 0) (hfree : (fms jt).id = 0) (hmail : ems e = false) :
    EmailOk (mapStore fms jt ⟨fm, n, jt, e⟩) (mapStore ems e true) ∧
    UniqOk (mapStore fms jt ⟨fm, n, jt, e⟩) := by
  constructor
  · intro x
    by_cases hx : x = e
    · subst hx
      rw [mapStore_same]
      constructor
      · intro _
        exact ⟨jt, by rw [mapStore_same]; exact ⟨hfm, rfl⟩⟩
      · intro _; rfl
    · rw [mapStore_other _ _ _ _ hx]
      constructor
      · intro hex
        obtain ⟨dt, hid, hemail⟩ := (hOk x).mp hex
        have hdt : dt ≠ jt := fun hh => hid (hh ▸ hfree)
        exact ⟨dt, by rw [mapStore_other _ _ _ _ hdt]; exact ⟨hid, hemail⟩⟩
      · rintro ⟨dt, hid, hemail⟩
        by_cases hdt : dt = jt
        · subst hdt
          rw [mapStore_same] at hemail
          exact absurd hemail.symm hx
        · rw [mapStore_other _ _ _ _ hdt] at hid hemail
          exact (hOk x).mpr ⟨dt, hid, hemail⟩
  · intro dt₁ dt₂ h₁ h₂ he
    by_cases d₁ : dt₁ = jt <;> by_cases d₂ : dt₂ = jt
    · rw [d₁, d₂]
    · subst d₁
      rw [mapStore_same] at he
      rw [mapStore_other _ _ _ _ d₂] at h₂ he
      exact absurd ((hOk e).mpr ⟨dt₂, h₂, he.symm⟩) (by simp [hmail])
    · subst d₂
      rw [mapStore_other _ _ _ _ d₁] at h₁ he
      rw [mapStore_same] at he
      exact absurd ((hOk e).mpr ⟨dt₁, h₁, he⟩) (by simp [hmail])
    · rw [mapStore_other _ _ _ _ d₁] at h₁ he
      rw [mapStore_other _ _ _ _ d₂] at h₂ he
      exact hU dt₁ dt₂ h₁ h₂ he

theorem emailOk_remove {fms : String → FieldManager} {ems : String → Bool}
    (hOk : EmailOk fms ems) (hU : UniqOk fms) {jt : String}
    (hocc : (fms jt).id ≠ 0) :
    EmailOk (mapStore fms jt FieldManager.zero)
      (mapStore ems (fms jt).email false) ∧
    UniqOk (mapStore fms jt FieldManager.zero) := by
  constructor
  · intro x
    by_cases hx : x = (fms jt).email
    · subst hx
      rw [mapStore_same]
      constructor
      · intro hc; exact absurd hc (by simp)
      · rintro ⟨dt, hid, hemail⟩
        by_cases hdt : dt = jt
        · subst hdt
          rw [mapStore_same] at hid
          exact absurd rfl hid
        · rw [mapStore_other _ _ _ _ hdt] at hid hemail
          exact absurd (hU dt jt hid hocc hemail) hdt
    · rw [mapStore_other _ _ _ _ hx]
      constructor
      · intro hex
        obtain ⟨dt, hid, hemail⟩ := (hOk x).mp hex
        have hdt : dt ≠ jt := fun hh => hx (by rw [← hemail, hh])
        exact ⟨dt, by rw [mapStore_other _ _ _ _ hdt]; exact ⟨hid, hemail⟩⟩
      · rintro ⟨dt, hid, hemail⟩
        by_cases hdt : dt = jt
        · subst hdt
          rw [mapStore_same] at hid
          exact absurd rfl hid
        · rw [mapStore_other _ _ _ _ hdt] at hid hemail
          exact (hOk x).mpr ⟨dt, hid, hemail⟩
  · intro dt₁ dt₂ h₁ h₂ he
    by_cases d₁ : dt₁ = jt
    · subst d₁; rw [mapStore_same] at h₁; exact absurd rfl h₁
    by_cases d₂ : dt₂ = jt
    · subst d₂; rw [mapStore_same] at h₂; exact absurd rfl h₂
    rw [mapStore_other _ _ _ _ d₁] at h₁ he
    rw [mapStore_other _ _ _ _ d₂] at h₂ he
    exact hU dt₁ dt₂ h₁ h₂ he

theorem emailOk_update_inplace {fms : String → FieldManager} {ems : String → Bool}
    (hOk : EmailOk fms ems) (hU : UniqOk fms) {jt nn ne : String}
    (hocc : (fms jt).id ≠ 0) (hfresh : ems ne = false) :
    EmailOk (mapStore fms jt ⟨(fms jt).id, nn, jt, ne⟩)
      (mapStore (mapStore ems (fms jt).email false) ne true) ∧
    UniqOk (mapStore fms jt ⟨(fms jt).id, nn, jt, ne⟩) := by
  have hE : ems (fms jt).email = true := (hOk _).mpr ⟨jt, hocc, rfl⟩
  have hneE : ne ≠ (fms jt).email := fun h => by
    rw [h, hE] at hfresh; cases hfresh
  constructor
  · intro x
    by_cases hx1 : x = ne
    · subst hx1
      rw [mapStore_same]
      constructor
      · intro _
        exact ⟨jt, by rw [mapStore_same]; exact ⟨hocc, rfl⟩⟩
      · intro _; rfl
    · rw [mapStore_other _ _ _ _ hx1]
      by_cases hx2 : x = (fms jt).email
      · subst hx2
        rw [mapStore_same]
        constructor
        · intro hc; exact absurd hc (by simp)
        · rintro ⟨dt, hid, hemail⟩
          by_cases hdt : dt = jt
          · subst hdt
            rw [mapStore_same] at hemail
            exact absurd hemail.symm hx1
          · rw [mapStore_other _ _ _ _ hdt] at hid hemail
            exact absurd (hU dt jt hid hocc hemail) hdt
      · rw [mapStore_other _ _ _ _ hx2]
        constructor
        · intro hex
          obtain ⟨dt, hid, hemail⟩ := (hOk x).mp hex
          have hdt : dt ≠ jt := fun hh => hx2 (by rw [← hemail, hh])
          exact ⟨dt, by rw [mapStore_other _ _ _ _ hdt]; exact ⟨hid, hemail⟩⟩
        · rintro ⟨dt, hid, hemail⟩
          by_cases hdt : dt = jt
          · subst hdt
            rw [mapStore_same] at hemail
            exact absurd hemail.symm hx1
          · rw [mapStore_other _ _ _ _ hdt] at hid hemail
            exact (hOk x).mpr ⟨dt, hid, hemail⟩
  · intro dt₁ dt₂ h₁ h₂ he
    by_cases d₁ : dt₁ = jt <;> by_cases d₂ : dt₂ = jt
    · rw [d₁, d₂]
    · subst d₁
      rw [mapStore_same] at he
      rw [mapStore_other _ _ _ _ d₂] at h₂ he
      exact absurd ((hOk ne).mpr ⟨dt₂, h₂, he.symm⟩) (by simp [hfresh])
    · subst d₂
      rw [mapStore_other _ _ _ _ d₁] at h₁ he
      rw [mapStore_same] at he
      exact absurd ((hOk ne).mpr ⟨dt₁, h₁, he⟩) (by simp [hfresh])
    · rw [mapStore_other _ _ _ _ d₁] at h₁ he
      rw [mapStore_other _ _ _ _ d₂] at h₂ he
      exact hU dt₁ dt₂ h₁ h₂ he

theorem emailOk_update_move {fms : String → FieldManager} {ems : String → Bool}
    (hOk : EmailOk fms ems) (hU : UniqOk fms) {jt nn njt ne : String}
    (hocc : (fms jt).id ≠ 0) (hfresh : ems ne = false)
    (hjj : jt ≠ njt) (hdead : (fms njt).id = 0) :
    EmailOk (mapStore (mapStore fms njt ⟨(fms jt).id, nn, njt, ne⟩) jt
        FieldManager.zero)
      (mapStore (mapStore ems (fms jt).email false) ne true) ∧
    UniqOk (mapStore (mapStore fms njt ⟨(fms jt).id, nn, njt, ne⟩) jt
        FieldManager.zero) := by
  have hE : ems (fms jt).email = true := (hOk _).mpr ⟨jt, hocc, rfl⟩
  have hneE : ne ≠ (fms jt).email := fun h => by
    rw [h, hE] at hfresh; cases hfresh
  constructor
  · intro x
    by_cases hx1 : x = ne
    · subst hx1
      rw [mapStore_same]
      constructor
      · intro _
        refine ⟨njt, ?_⟩
        rw [mapStore_other _ _ _ _ (Ne.symm hjj), mapStore_same]
        exact ⟨hocc, rfl⟩
      · intro _; rfl
    · rw [mapStore_other _ _ _ _ hx1]
      by_cases hx2 : x = (fms jt).email
      · subst hx2
        rw [mapStore_same]
        constructor
        · intro hc; exact absurd hc (by simp)
        · rintro ⟨dt, hid, hemail⟩
          by_cases hdt : dt = jt
          · subst hdt
            rw [mapStore_same] at hid
            exact absurd rfl hid
          · rw [mapStore_other _ _ _ _ hdt] at hid hemail
            by_cases hdn : dt = njt
            · subst hdn
              rw [mapStore_same] at hemail
              exact absurd hemail.symm hx1
            · rw [mapStore_other _ _ _ _ hdn] at hid hemail
              exact absurd (hU dt jt hid hocc hemail) hdt
      · rw [mapStore_other _ _ _ _ hx2]
        constructor
        · intro hex
          obtain ⟨dt, hid, hemail⟩ := (hOk x).mp hex
          have hdt : dt ≠ jt := fun hh => hx2 (by rw [← hemail, hh])
          have hdn : dt ≠ njt := fun hh => hid (hh ▸ hdead)
          refine ⟨dt, ?_⟩
          rw [mapStore_other _ _ _ _ hdt, mapStore_other _ _ _ _ hdn]
          exact ⟨hid, hemail⟩
        · rintro ⟨dt, hid, hemail⟩
          by_cases hdt : dt = jt
          · subst hdt
            rw [mapStore_same] at hid
            exact absurd rfl hid
          · rw [mapStore_other _ _ _ _ hdt] at hid hemail
            by_cases hdn : dt = njt
            · subst hdn
              rw [mapStore_same] at hemail
              exact absurd hemail.symm hx1
            · rw [mapStore_other _ _ _ _ hdn] at hid hemail
              exact (hOk x).mpr ⟨dt, hid, hemail⟩
  · intro dt₁ dt₂ h₁ h₂ he
    by_cases d₁ : dt₁ = jt
    · subst d₁; rw [mapStore_same] at h₁; exact absurd rfl h₁
    by_cases d₂ : dt₂ = jt
    · subst d₂; rw [mapStore_same] at h₂; exact absurd rfl h₂
    rw [mapStore_other _ _ _ _ d₁] at h₁ he
    rw [mapStore_other _ _ _ _ d₂] at h₂ he
    by_cases n₁ : dt₁ = njt <;> by_cases n₂ : dt₂ = njt
    · rw [n₁, n₂]
    · subst n₁
      rw [mapStore_same] at he
      rw [mapStore_other _ _ _ _ n₂] at h₂ he
      exact absurd ((hOk ne).mpr ⟨dt₂, h₂, he.symm⟩) (by simp [hfresh])
    · subst n₂
      rw [mapStore_other _ _ _ _ n₁] at h₁ he
      rw [mapStore_same] at he
      exact absurd ((hOk ne).mpr ⟨dt₁, h₁, he⟩) (by simp [hfresh])
    · rw [mapStore_other _ _ _ _ n₁] at h₁ he
      rw [mapStore_other _ _ _ _ n₂] at h₂ he
      exact hU dt₁ dt₂ h₁ h₂ he

theorem goodReachable_emails {env : Env} {s : ContractState}
    (h : GoodReachable env s) :
    EmailOk s.fieldManagers s.emailExists ∧ UniqOk s.fieldManagers := by
  induction h with
  | deployed a n =>
      constructor
      · intro e
        simp [deploy, FieldManager.zero]
      · intro dt₁ dt₂ h₁
        simp [deploy, FieldManager.zero] at h₁
  | step op hreach hgood hok ih =>
      cases op with
      | addHRManagerOp sender a n =>
          simp only [execOp] at hok
          obtain ⟨hf, he, -⟩ := addHRManager_ok_inv hok
          rw [hf, he]; exact ih
      | removeHRManagerOp sender a =>
          simp only [execOp] at hok
          obtain ⟨hf, he, -⟩ := removeHRManager_ok_inv hok
          rw [hf, he]; exact ih
      | updateHRManagerOp sender a n =>
          simp only [execOp] at hok
          obtain ⟨hf, he, -⟩ := updateHRManager_ok_inv hok
          rw [hf, he]; exact ih
      | verifyJobOp t d jt sa ss =>
          simp only [execOp] at hok
          obtain ⟨hf, he, -⟩ := verifyJob_ok_inv hok
          rw [hf, he]; exact ih
      | addFieldManagerOp sender fm n jt e =>
          simp only [execOp] at hok
          simp only [goodOp] at hgood
          obtain ⟨hfree, hmail, hf, he, -⟩ := addFieldManager_ok_inv hok
          rw [hf, he]
          exact emailOk_add ih.1 ih.2 hgood hfree hmail
      | removeFieldManagerOp sender jt =>
          simp only [execOp] at hok
          obtain ⟨hocc, hf, he, -⟩ := removeFieldManager_ok_inv hok
          rw [hf, he]; exact emailOk_remove ih.1 ih.2 hocc
      | updateFieldManagerOp sender jt nn njt ne =>
          simp only [execOp] at hok
          simp only [goodOp] at hgood
          obtain ⟨hg1, hg2⟩ := hgood
          obtain ⟨hocc, hfresh, he, hf, -⟩ := updateFieldManager_ok_inv hok
          by_cases hjj : njt = jt
          · subst hjj
            rw [if_neg (by simp)] at hf
            rw [hf, he]
            exact emailOk_update_inplace ih.1 ih.2 hocc hfresh
          · have hhash : env.keccak256 (encStr jt) ≠ env.keccak256 (encStr njt) :=
              fun hh => hjj (hg2 hh).symm
            rw [if_pos hhash] at hf
            have hdead := hg1.resolve_left hjj
            rw [hf, he]
            exact emailOk_update_move ih.1 ih.2 hocc hfresh
              (fun hh => hjj hh.symm) hdead

/-- The three calls that build the state of the C3 counterexample:
register Bob for Support, register Ann for IT, then move Ann onto the
already occupied Support key with a fresh email. -/
def stB1 : ContractState := forceOk st0 (addFieldManager st0 1 3 "Bob" "Support" "b@x")

def stB2 : ContractState := forceOk stB1 (addFieldManager stB1 1 2 "Ann" "IT" "a@x")

def stBroken : ContractState :=
  forceOk stB2 (updateFieldManager cEnv stB2 1 "IT" "Ann" "Support" "n@x")

/-- Counterexample to C3 as stated: stBroken is reachable by successful
registry calls, yet the email b@x stays marked in the uniqueness index while
no live record carries it — updateFieldManager silently overwrote Bob's
record without freeing his email. -/
theorem email_index_cex :
    Reachable cEnv stBroken ∧
    stBroken.emailExists "b@x" = true ∧
    ∀ dt : String, ¬ ((stBroken.fieldManagers dt).id ≠ 0 ∧
      (stBroken.fieldManagers dt).email = "b@x") := by
  refine ⟨?_, by decide, ?_⟩
  · exact Reachable.step (Op.updateFieldManagerOp 1 "IT" "Ann" "Support" "n@x")
      (Reachable.step (Op.addFieldManagerOp 1 2 "Ann" "IT" "a@x")
        (Reachable.step (Op.addFieldManagerOp 1 3 "Bob" "Support" "b@x")
          (Reachable.deployed 1 "Alice") rfl) rfl) rfl
  · rintro dt ⟨hid, hemail⟩
    have hval : stBroken.fieldManagers = mapStore (mapStore (mapStore (mapStore
        (fun _ => FieldManager.zero) "Support" ⟨3, "Bob", "Support", "b@x"⟩)
        "IT" ⟨2, "Ann", "IT", "a@x"⟩) "Support" ⟨2, "Ann", "Support", "n@x"⟩)
        "IT" FieldManager.zero := rfl
    rw [hval] at hid hemail
    by_cases h1 : dt = "IT"
    · rw [h1, mapStore_same] at hid
      exact hid rfl
    · rw [mapStore_other _ _ _ _ h1] at hid hemail
      by_cases h2 : dt = "Support"
      · rw [h2, mapStore_same] at hemail
        exact absurd hemail (by decide)
      · rw [mapStore_other _ _ _ _ h2, mapStore_other _ _ _ _ h1,
          mapStore_other _ _ _ _ h2] at hid
        exact hid rfl

/-- C3 amended: over runs in which every addFieldManager supplies a nonzero
identity and every updateFieldManager either keeps its domain key or moves
to an unoccupied one (with the packed-key hash comparison collision-free on
the two keys involved), the contact-uniqueness index is exactly the set of
emails of live specialist records, in every reachable state. -/
theorem email_index_consistent (env : Env) (s : ContractState)
    (h : GoodReachable env s) : EmailInv s :=
  (goodReachable_emails h).1

/-- Witness for C3 amended: stIT is good-reachable and its index marks
exactly the registered email c@x. -/
theorem email_index_consistent_witness :
    GoodReachable cEnv stIT ∧ stIT.emailExists "c@x" = true := by
  have hreach : GoodReachable cEnv stIT :=
    GoodReachable.step (Op.addFieldManagerOp 1 2 "Charlie" "IT" "c@x")
      (GoodReachable.deployed 1 "Alice") (by show (2 : Address) ≠ 0; decide) rfl
  exact ⟨hreach, (email_index_consistent cEnv stIT hreach "c@x").mpr
    ⟨"IT", by decide, by decide⟩⟩

end JobApproval
